import Mathlib

/-!
Verification development for the agent-info-analysis crawler.

The definitions below are a shallow embedding of the Python sources:
  - src/src/models/agent.py        (Agent, AgentInfo, AgentEncoder)
  - src/src/services/scraper.py    (AIDirectoryScraper)
  - src/src/services/crawl4ai.py   (crawl + structured extraction capabilities)
  - src/commands.py                (the scrape CLI command)
  - src/crawl-src-windsurf.py      (the standalone variant of the scraper)

External capabilities (the Selenium driver, the crawl4ai fetcher and the
LLM extraction call) are modelled as function parameters describing their
behaviour per invocation; machine effects (sleeps, retries, checkpoint
writes) are made explicit as data in the returned traces.
-/

namespace AgentScraper

/-! ## Python string helpers -/

/-- Python str.title restricted to ASCII letters: the first letter of each
run of letters is uppercased, the following letters are lowercased.  Used by
the windsurf variant to derive a category name from a URL path segment. -/
def pyTitleGo : Bool → List Char → List Char
  | _, [] => []
  | prev, c :: cs =>
    if c.isAlpha then
      (if prev then c.toLower else c.toUpper) :: pyTitleGo true cs
    else
      c :: pyTitleGo false cs

def pyTitle (s : String) : String :=
  String.mk (pyTitleGo false s.data)

/-- Substring containment on character lists: the needle occurs as a
contiguous run somewhere in the haystack. -/
def subList (needle : List Char) : List Char → Bool
  | [] => needle.isEmpty
  | c :: rest => needle.isPrefixOf (c :: rest) || subList needle rest

/-- Substring containment test, Python operator in on strings. -/
def containsSub (needle hay : String) : Bool :=
  subList needle.data hay.data

/-- ASCII whitespace for Python str.strip. -/
def pySpace (c : Char) : Bool :=
  c = ' ' || c = '\t' || c = '\n' || c = '\r' || c = '\x0b' || c = '\x0c'

/-- Python str.strip with no argument: whitespace removed from both ends. -/
def pyStrip (s : String) : String :=
  String.mk ((s.data.dropWhile pySpace).reverse.dropWhile pySpace).reverse

/-- Python str.startswith. -/
def pyStartsWith (s p : String) : Bool :=
  p.data.isPrefixOf s.data

def pySplitGo (sep : Char) (acc : List Char) : List Char → List String
  | [] => [String.mk acc.reverse]
  | c :: rest =>
    if c = sep then String.mk acc.reverse :: pySplitGo sep [] rest
    else pySplitGo sep (c :: acc) rest

/-- Python str.split with a one-character separator. -/
def pySplit (s : String) (sep : Char) : List String :=
  pySplitGo sep [] s.data

/-- Python str.lower restricted to ASCII letters. -/
def pyLower (s : String) : String :=
  String.mk (s.data.map Char.toLower)

/-- Python str.replace for a one-character pattern and replacement. -/
def pyReplaceChar (s : String) (a b : Char) : String :=
  String.mk (s.data.map (fun c => if c = a then b else c))

/-! ## JSON values and the Python json.dump serialization

json.dump is called with indent=2, ensure_ascii=False (commands.py writes
through AIDirectoryScraper.save_progress).  We model JSON values and the
exact text produced by CPython json for them: two-space indentation, item
separator comma + newline, key separator colon + space, and string escaping
that leaves non-ASCII characters literal. -/

inductive Json where
  | null
  | str (s : String)
  | num (n : Int)
  | arr (items : List Json)
  | obj (fields : List (String × Json))

def hexDigit (n : Nat) : Char :=
  if n < 10 then Char.ofNat (48 + n) else Char.ofNat (87 + n)

def hex4 (n : Nat) : String :=
  String.mk [hexDigit (n / 4096 % 16), hexDigit (n / 256 % 16),
             hexDigit (n / 16 % 16), hexDigit (n % 16)]

/-- CPython json string escaping with ensure_ascii=False: only the quote,
the backslash and control characters below 0x20 are escaped; every other
character, in particular every non-ASCII character, is emitted literally. -/
def escapeChar (c : Char) : String :=
  if c = '"' then "\\\""
  else if c = '\\' then "\\\\"
  else if c = '\n' then "\\n"
  else if c = '\r' then "\\r"
  else if c = '\t' then "\\t"
  else if c = '\x08' then "\\b"
  else if c = '\x0c' then "\\f"
  else if c.toNat < 32 then "\\u" ++ hex4 c.toNat
  else String.mk [c]

def pyStr (s : String) : String :=
  "\"" ++ String.join (s.data.map escapeChar) ++ "\""

def spaces (n : Nat) : String :=
  String.mk (List.replicate n ' ')

mutual

/-- Text produced by json.dump(value, indent=2, ensure_ascii=False) when the
value sits at nesting level lvl. -/
def pyDumpsLevel : Json → Nat → String
  | Json.null, _ => "null"
  | Json.str s, _ => pyStr s
  | Json.num n, _ => toString n
  | Json.arr items, lvl =>
    match items with
    | [] => "[]"
    | x :: xs =>
      "[\n" ++ String.intercalate ",\n" (pyDumpsArr (x :: xs) (lvl + 1)) ++
        "\n" ++ spaces (lvl * 2) ++ "]"
  | Json.obj fields, lvl =>
    match fields with
    | [] => "\x7b\x7d"
    | f :: fs =>
      "\x7b\n" ++ String.intercalate ",\n" (pyDumpsObj (f :: fs) (lvl + 1)) ++
        "\n" ++ spaces (lvl * 2) ++ "\x7d"

def pyDumpsArr : List Json → Nat → List String
  | [], _ => []
  | x :: xs, lvl => (spaces (lvl * 2) ++ pyDumpsLevel x lvl) :: pyDumpsArr xs lvl

def pyDumpsObj : List (String × Json) → Nat → List String
  | [], _ => []
  | f :: fs, lvl =>
    (spaces (lvl * 2) ++ pyStr f.1 ++ ": " ++ pyDumpsLevel f.2 lvl) :: pyDumpsObj fs lvl

end

def pyDumps (j : Json) : String := pyDumpsLevel j 0

/-! ## urllib.parse.urljoin

The scraper always joins against the base URL
https://aiagentsdirectory.com (scheme + netloc, empty path), and the hrefs
taken from the page start with a slash (the CSS selectors require the
prefixes /agent and /category/).  For an absolute-path reference CPython
splits the path on slashes and resolves the single-dot and double-dot
segments before re-joining; we reproduce that branch exactly, keep
full URLs unchanged, and append simple relative references to the base. -/

def resolveSegments : List String → List String → List String
  | acc, [] => acc
  | acc, seg :: rest =>
    if seg = ".." then resolveSegments acc.dropLast rest
    else if seg = "." then resolveSegments acc rest
    else resolveSegments (acc ++ [seg]) rest

def urljoin (base href : String) : String :=
  if href = "" then base
  else if containsSub "://" href then href
  else if pyStartsWith href "/" then
    let segs := pySplit href '/'
    let resolved := resolveSegments [] segs
    let resolved :=
      if segs.getLastD "" = "." ∨ segs.getLastD "" = ".." then resolved ++ [""]
      else resolved
    let p := String.intercalate "/" resolved
    base ++ (if p = "" then "/" else p)
  else base ++ "/" ++ href

/-! ## Data model (src/src/models/agent.py) -/

/-- Pydantic model AgentInfo; the optional list and mapping fields keep
their declaration order, which is the order model_dump serializes them. -/
structure AgentInfo where
  name : String
  logo_url : String
  website_url : String
  description : Option String
  review : Option String
  key_features : Option (List String)
  user_cases : Option (List String)
  details : Option (List (String × String))
  preview_url : Option String
deriving DecidableEq

/-- Dataclass Agent. -/
structure Agent where
  name : String
  url : String
  source_url : Option String
  description : Option String
  info : Option AgentInfo
deriving DecidableEq

/-- Agent construction including the post-init validation: an empty name or
an empty url raises ValueError. -/
def mkAgent (name url : String) (source_url description : Option String)
    (info : Option AgentInfo) : Except String Agent :=
  if name = "" ∨ url = "" then Except.error "Agent must have both name and URL"
  else Except.ok (Agent.mk name url source_url description info)

def optStrJson : Option String → Json
  | none => Json.null
  | some s => Json.str s

/-- model_dump of AgentInfo, in field declaration order. -/
def agentInfoToJson (i : AgentInfo) : Json :=
  Json.obj
    [("name", Json.str i.name),
     ("logo_url", Json.str i.logo_url),
     ("website_url", Json.str i.website_url),
     ("description", optStrJson i.description),
     ("review", optStrJson i.review),
     ("key_features", match i.key_features with
        | none => Json.null
        | some l => Json.arr (l.map Json.str)),
     ("user_cases", match i.user_cases with
        | none => Json.null
        | some l => Json.arr (l.map Json.str)),
     ("details", match i.details with
        | none => Json.null
        | some l => Json.obj (l.map (fun p => (p.1, Json.str p.2)))),
     ("preview_url", optStrJson i.preview_url)]

/-- AgentEncoder.default for an Agent value. -/
def agentToJson (a : Agent) : Json :=
  Json.obj
    [("name", Json.str a.name),
     ("url", Json.str a.url),
     ("source_url", optStrJson a.source_url),
     ("description", optStrJson a.description),
     ("info", match a.info with
        | none => Json.null
        | some i => agentInfoToJson i)]

/-! ## AIDirectoryScraper._safe_request (src/src/services/scraper.py)

One attempt: navigate, wait for readiness, then a guard raising when the
rendered page source is shorter than 1000 characters.  The behaviour of the
driver at attempt number i is a PageLoad: either some raised fault
(navigation timeout, driver fault) or a successful load returning the page
source.  The trace records the returned value, how many attempts ran and
the backoff sleeps taken between failed attempts. -/

inductive PageLoad where
  | fault
  | loaded (html : String)

structure FetchTrace where
  result : Option String
  attempts : Nat
  sleeps : List Nat
deriving DecidableEq

/-- The for-loop of _safe_request over the remaining attempt indices.  A
loaded page shorter than 1000 characters raises and is handled like any
other fault: on a non-final attempt the loop sleeps min(2 ^ attempt, 3) and
continues, on the final attempt it returns None. -/
def safeRequestIter (behavior : Nat → PageLoad) (retries : Nat) :
    List Nat → FetchTrace
  | [] => FetchTrace.mk none retries []
  | attempt :: rest =>
    let failed : FetchTrace :=
      if attempt = retries - 1 then FetchTrace.mk none (attempt + 1) []
      else
        let r := safeRequestIter behavior retries rest
        FetchTrace.mk r.result r.attempts (min (2 ^ attempt) 3 :: r.sleeps)
    match behavior attempt with
    | PageLoad.fault => failed
    | PageLoad.loaded html =>
      if html.length < 1000 then failed
      else FetchTrace.mk (some html) (attempt + 1) []

def safe_request (behavior : Nat → PageLoad) (retries : Nat) : FetchTrace :=
  safeRequestIter behavior retries (List.range retries)

/-- The attempt at index i loads a page passing the content-length guard. -/
def attemptOk (behavior : Nat → PageLoad) (i : Nat) : Bool :=
  match behavior i with
  | PageLoad.fault => false
  | PageLoad.loaded html => decide (1000 ≤ html.length)

def attemptHtml (behavior : Nat → PageLoad) (i : Nat) : Option String :=
  match behavior i with
  | PageLoad.fault => none
  | PageLoad.loaded html => some html

/-! ## Listing extraction (get_agents_from_category, parsing part)

The rendered category page is modelled as the list of its anchor elements
with class block, each carrying the href attribute, the text of the nested
h3 and the text of the nested p.  The pq selector then keeps those whose
href starts with /agent. -/

structure ListingAnchor where
  href : String
  h3Text : String
  pText : String
deriving DecidableEq

def selectAgentBlocks (doc : List ListingAnchor) : List ListingAnchor :=
  doc.filter (fun b => pyStartsWith b.href "/agent")

/-- The extraction loop.  seen is the seen_urls set (raw hrefs); the first
component pairs every produced agent with the href of the anchor it was
built from (bookkeeping for the theorems), the second component is the
final seen_urls. -/
def extractGo (base cat : String) :
    List ListingAnchor → List String → List (String × Agent) × List String
  | [], seen => ([], seen)
  | b :: rest, seen =>
    if b.href = "" ∨ b.href ∈ seen then extractGo base cat rest seen
    else
      let name := pyStrip b.h3Text
      let description := pyStrip b.pText
      let url := urljoin base b.href
      if name ≠ "" ∧ url ≠ "" then
        let r := extractGo base cat rest (b.href :: seen)
        ((b.href, Agent.mk name url (some cat) (some description) none) :: r.1, r.2)
      else extractGo base cat rest seen

/-- get_agents_from_category restricted to its parsing step: the agents
extracted from the final page source. -/
def extractAgents (base cat : String) (doc : List ListingAnchor) : List Agent :=
  ((extractGo base cat (selectAgentBlocks doc) []).1).map Prod.snd

/-! ## Category extraction

Two implementations live in the repository.  A rendered directory page is
modelled as its list of anchors, each with the href attribute, the text of
the nested h2 (used by the service layer) and the anchor text (used by the
windsurf variant). -/

structure HtmlAnchor where
  href : String
  h2Text : String
  fullText : String
deriving DecidableEq

/-- Python dict insertion: an existing key keeps its position and gets the
new value, a new key is appended. -/
def dictInsert (d : List (String × String)) (k v : String) :
    List (String × String) :=
  if d.any (fun p => p.1 = k) then
    d.map (fun p => if p.1 = k then (k, v) else p)
  else d ++ [(k, v)]

/-- AIDirectoryScraper.get_categories in src/src/services/scraper.py: the
selector keeps anchors whose href starts with /category/, the name is the
trimmed h2 text, and an anchor with an empty href or an empty name is
dropped.  There is no denylist filtering. -/
def getCategoriesSvcGo (base : String) :
    List HtmlAnchor → List (String × String) → List (String × String)
  | [], cats => cats
  | a :: rest, cats =>
    if pyStartsWith a.href "/category/" then
      let name := pyStrip a.h2Text
      if a.href ≠ "" ∧ name ≠ "" then
        getCategoriesSvcGo base rest (dictInsert cats name (urljoin base a.href))
      else getCategoriesSvcGo base rest cats
    else getCategoriesSvcGo base rest cats

def getCategoriesSvc (base : String) (doc : List HtmlAnchor) :
    List (String × String) :=
  getCategoriesSvcGo base doc []

/-- get_categories returns the empty dict when _safe_request came back with
None for the categories page. -/
def getCategoriesFromFetch (base : String) (fetched : Option (List HtmlAnchor)) :
    List (String × String) :=
  match fetched with
  | none => []
  | some doc => getCategoriesSvc base doc

def denySkips : List String := ["/blog", "/sponsor", "/submit", "/login"]

/-- Category name derivation of the windsurf variant for an anchor whose
text is empty: last URL path segment, dashes replaced by spaces,
title-cased. -/
def deriveName (href : String) : String :=
  pyTitle (pyReplaceChar ((pySplit href '/').getLastD "") '-' ' ')

/-- get_categories in src/crawl-src-windsurf.py: selector prefix /category,
denylist of path fragments checked as substrings of the lowercased href,
and name derivation for anchors with empty text. -/
def getCategoriesWindGo (base : String) :
    List HtmlAnchor → List (String × String) → List (String × String)
  | [], cats => cats
  | a :: rest, cats =>
    if pyStartsWith a.href "/category" then
      if a.href ≠ "" ∧ denySkips.all (fun s => ¬ containsSub s (pyLower a.href)) then
        let name :=
          if pyStrip a.fullText = "" then deriveName a.href else pyStrip a.fullText
        getCategoriesWindGo base rest (dictInsert cats name (urljoin base a.href))
      else getCategoriesWindGo base rest cats
    else getCategoriesWindGo base rest cats

def getCategoriesWind (base : String) (doc : List HtmlAnchor) :
    List (String × String) :=
  getCategoriesWindGo base doc []

/-! ## Enrichment (get_agent_details and AIDirectoryScraper.get_agent_info)

get_agent_details performs one crawl of the agent page and one structured
extraction inside a single try block; any exception is caught and logged
and the agent is returned unchanged.  The capabilities are modelled per
invocation: crawlSeq k is the outcome of the k-th crawl call made by this
function and extractSeq k md the outcome of the k-th extraction call on
markdown md.  The trace counts the calls actually made. -/

structure EnrichTrace where
  agent : Agent
  crawlCalls : Nat
  extractCalls : Nat
deriving DecidableEq

def get_agent_details (crawlSeq : Nat → Except String String)
    (extractSeq : Nat → String → Except String AgentInfo)
    (agent : Agent) : EnrichTrace :=
  match crawlSeq 0 with
  | Except.error _ => EnrichTrace.mk agent 1 0
  | Except.ok md =>
    match extractSeq 0 md with
    | Except.error _ => EnrichTrace.mk agent 1 1
    | Except.ok info =>
      EnrichTrace.mk
        (Agent.mk agent.name agent.url agent.source_url agent.description
          (some info)) 1 1

/-- The method AIDirectoryScraper.get_agent_info (used by the test CLI, not
by the scrape command): up to 4 attempts of crawl plus extraction;
attemptResult i is the combined outcome of attempt i.  On the failure of
attempt 3 the exception is re-raised; the empty-list case is unreachable
for the actual range. -/
def agentInfoLoop (attemptResult : Nat → Except String AgentInfo) :
    List Nat → Except String AgentInfo
  | [] => Except.error "unreachable: loop always returns or raises"
  | attempt :: rest =>
    match attemptResult attempt with
    | Except.ok info => Except.ok info
    | Except.error e =>
      if attempt = 3 then Except.error e else agentInfoLoop attemptResult rest

def scraper_get_agent_info (attemptResult : Nat → Except String AgentInfo) :
    Except String AgentInfo :=
  agentInfoLoop attemptResult (List.range 4)

/-! ## Pagination loop of get_agents_from_category (service layer)

The while-True loop locates the Load More button, breaks when locating it
raises or when the button is not displayed or not enabled, and otherwise
clicks and sleeps.  It inspects nothing but the button: the page content is
not consulted.  behavior k is the state of the button at check k. -/

inductive ControlState where
  | absent
  | unusable
  | clickable
deriving DecidableEq

/-- Fuel-indexed unfolding of the while-True loop; none means the loop has
not terminated within fuel iterations, some c that it terminated after c
clicks. -/
def drainLoop (behavior : Nat → ControlState) : Nat → Nat → Nat → Option Nat
  | _, _, 0 => none
  | clicks, k, fuel + 1 =>
    match behavior k with
    | ControlState.absent => some clicks
    | ControlState.unusable => some clicks
    | ControlState.clickable => drainLoop behavior (clicks + 1) (k + 1) fuel

def drain (behavior : Nat → ControlState) (fuel : Nat) : Option Nat :=
  drainLoop behavior 0 0 fuel

/-! ## Pagination loop of the windsurf variant

get_agents_from_category in src/crawl-src-windsurf.py interleaves
extraction and pagination: each iteration re-reads the page, counts the
anchors matched by the primary selector, falls back to a second selector
when that count is zero, appends the agents whose resolved URL is new,
then waits for the Load More button; it breaks when the button is missing
or unusable, and after a click it also breaks when the number of
accumulated distinct URLs equals the primary-selector count of the page it
just read. -/

structure WAnchor where
  href : String
  text : String
deriving DecidableEq

structure WAgent where
  name : String
  url : String
  source_url : String
deriving DecidableEq

structure WPage where
  anchors : List WAnchor
  control : ControlState

/-- The primary selector of the windsurf listing loop, anchors whose href
contains /agent/. -/
def wPrimaryBlocks (doc : List WAnchor) : List WAnchor :=
  doc.filter (fun b => containsSub "/agent/" b.href)

/-- The fallback selector, anchors whose href contains /tools/, tried when
the primary selector matched nothing. -/
def wFallbackBlocks (doc : List WAnchor) : List WAnchor :=
  doc.filter (fun b => containsSub "/tools/" b.href)

/-- The per-iteration block processing: name is the anchor text trimmed,
the URL is resolved against the base, and an agent is appended when name
and URL are non-empty and the URL was not seen before. -/
def wAddAgents (base caturl : String) :
    List WAnchor → List WAgent → List String → List WAgent × List String
  | [], agents, seen => (agents, seen)
  | b :: rest, agents, seen =>
    let name := pyStrip b.text
    let url := urljoin base b.href
    if name ≠ "" ∧ url ≠ "" ∧ url ∉ seen then
      wAddAgents base caturl rest (agents ++ [WAgent.mk name url caturl]) (url :: seen)
    else wAddAgents base caturl rest agents seen

/-- The listing loop of the windsurf variant.  Note that current_count is
fixed as the number of blocks matched by the primary selector before the
fallback selector is tried: the later stagnation check compares seen_urls
against the primary count even when the blocks actually processed came
from the fallback selector. -/
def windsurfLoop (base caturl : String) (behavior : Nat → WPage) :
    Nat → List WAgent → List String → Nat → Nat → Option (List WAgent × Nat)
  | _, _, _, _, 0 => none
  | k, agents, seen, clicks, fuel + 1 =>
    let page := behavior k
    let primary := wPrimaryBlocks page.anchors
    let current_count := primary.length
    let blocks :=
      if current_count = 0 then wFallbackBlocks page.anchors else primary
    let step := wAddAgents base caturl blocks agents seen
    match page.control with
    | ControlState.absent => some (step.1, clicks)
    | ControlState.unusable => some (step.1, clicks)
    | ControlState.clickable =>
      if step.2.length = current_count then some (step.1, clicks + 1)
      else windsurfLoop base caturl behavior (k + 1) step.1 step.2 (clicks + 1) fuel

def windsurfDrain (base caturl : String) (behavior : Nat → WPage)
    (fuel : Nat) : Option (List WAgent × Nat) :=
  windsurfLoop base caturl behavior 0 [] [] 0 fuel

/-! ## Checkpoint reuse and the scrape command (src/commands.py)

The command loads update.json into agent_map (a name-keyed mapping of raw
JSON objects), then for every category and every stub decides reuse: a stub
whose name is absent from the map, or whose entry has a missing or null
info, is enriched; otherwise the raw stored entry is appended verbatim.
After every item save_progress is called with the full accumulated list. -/

def lookupMap (m : List (String × Json)) (k : String) : Option Json :=
  (m.find? (fun p => p.1 == k)).map Prod.snd

/-- dict.get of a key on a JSON object (update.json entries are objects). -/
def jsonGet (j : Json) (k : String) : Option Json :=
  match j with
  | Json.obj fields => (fields.find? (fun p => p.1 == k)).map Prod.snd
  | _ => none

/-- The Python test None == entry.get of info: true when the key is missing
or its value is null. -/
def infoIsNull (stored : Json) : Bool :=
  match jsonGet stored "info" with
  | none => true
  | some Json.null => true
  | some _ => false

/-- The reuse decision of the scrape command for a stub name: some stored
entry when the checkpoint holds it with a non-null info, none when the
enrichment branch is taken. -/
def reuseEntry (m : List (String × Json)) (name : String) : Option Json :=
  match lookupMap m name with
  | none => none
  | some stored => if infoIsNull stored then none else some stored

structure ScrapeRun where
  output : List Json
  saves : List (List Json)
  enrichCalls : Nat

/-- The inner per-agent loop of the scrape command.  acc is all_agents so
far (as serialized values: reused raw entries, enriched agents through the
encoder), saves collects the argument of every save_progress call, and
enrichCalls counts the get_agent_details invocations.  details is the
enrichment capability (get_agent_details with its behaviours fixed). -/
def processStubs (m : List (String × Json)) (details : Agent → Agent) :
    List Agent → List Json → List (List Json) → Nat → ScrapeRun
  | [], acc, saves, calls => ScrapeRun.mk acc saves calls
  | stub :: rest, acc, saves, calls =>
    match reuseEntry m stub.name with
    | none =>
      let acc2 := acc ++ [agentToJson (details stub)]
      processStubs m details rest acc2 (saves ++ [acc2]) (calls + 1)
    | some stored =>
      let acc2 := acc ++ [stored]
      processStubs m details rest acc2 (saves ++ [acc2]) calls

/-- The outer loop over the categories; listing is the behaviour of
get_agents_from_category per category URL (the site content). -/
def scrapeCats (m : List (String × Json)) (details : Agent → Agent)
    (listing : String → List Agent) :
    List (String × String) → List Json → List (List Json) → Nat → ScrapeRun
  | [], acc, saves, calls => ScrapeRun.mk acc saves calls
  | c :: cs, acc, saves, calls =>
    let r := processStubs m details (listing c.2) acc saves calls
    scrapeCats m details listing cs r.output r.saves r.enrichCalls

def scrapeRunAll (m : List (String × Json)) (cats : List (String × String))
    (listing : String → List Agent) (details : Agent → Agent) : ScrapeRun :=
  scrapeCats m details listing cats [] [] 0

/-- The stubs processed by a run, in processing order. -/
def allStubs (cats : List (String × String)) (listing : String → List Agent) :
    List Agent :=
  (cats.map (fun c => listing c.2)).flatten

/-- The output item a single stub contributes. -/
def stepFn (m : List (String × Json)) (details : Agent → Agent) (s : Agent) :
    Json :=
  match reuseEntry m s.name with
  | none => agentToJson (details s)
  | some stored => stored

/-! ## Checkpoint persistence and the exit code -/

/-- A Python call that either returns normally or raises. -/
inductive PyResult (α : Type) where
  | ok (a : α)
  | raised (msg : String)
deriving DecidableEq

/-- save_progress: serializes the accumulated list as one JSON array with
json.dump(..., indent=2, ensure_ascii=False, cls=AgentEncoder) and hands the
text to the file writer; a raising writer is caught and logged, so the
function always returns normally. -/
def save_progress (write : String → PyResult Unit) (agents : List Json) :
    PyResult Unit :=
  match write (pyDumps (Json.arr agents)) with
  | PyResult.ok _ => PyResult.ok Unit.unit
  | PyResult.raised _ => PyResult.ok Unit.unit

/-- The scrape command.  It first opens update.json (a missing file raises
out of the command); everything after that is built from the total
functions above: get_categories catches its fetch failures, the per-item
work catches its own failures, save_progress catches write failures.
Typer maps a normal return to exit code 0. -/
def scrapeCommandRun (updateFile : Option (List (String × Json)))
    (cats : List (String × String)) (listing : String → List Agent)
    (details : Agent → Agent) : PyResult ScrapeRun :=
  match updateFile with
  | none => PyResult.raised "FileNotFoundError: ./update.json"
  | some m => PyResult.ok (scrapeRunAll m cats listing details)

def exitCodeOf : PyResult ScrapeRun → Nat
  | PyResult.ok _ => 0
  | PyResult.raised _ => 1

/-! ## Theorems -/

lemma safeRequest3_case0 (b : Nat → PageLoad) (h : attemptOk b 0 = true) :
    safe_request b 3 = FetchTrace.mk (attemptHtml b 0) 1 [] := by
  have hr : List.range 3 = [0, 1, 2] := rfl
  unfold safe_request
  rw [hr]
  cases hb : b 0 with
  | fault => simp [attemptOk, hb] at h
  | loaded html =>
    simp only [attemptOk, hb, decide_eq_true_eq] at h
    simp [safeRequestIter, hb, attemptHtml, Nat.not_lt.mpr h]

lemma safeRequest3_case1 (b : Nat → PageLoad) (h0 : attemptOk b 0 = false)
    (h1 : attemptOk b 1 = true) :
    safe_request b 3 = FetchTrace.mk (attemptHtml b 1) 2 [1] := by
  have hr : List.range 3 = [0, 1, 2] := rfl
  unfold safe_request
  rw [hr]
  cases hb1 : b 1 with
  | fault => simp [attemptOk, hb1] at h1
  | loaded html =>
    simp only [attemptOk, hb1, decide_eq_true_eq] at h1
    cases hb0 : b 0 with
    | fault =>
      simp [safeRequestIter, hb0, hb1, attemptHtml, Nat.not_lt.mpr h1]
    | loaded h0html =>
      simp only [attemptOk, hb0, decide_eq_false_iff_not] at h0
      have : h0html.length < 1000 := by omega
      simp [safeRequestIter, hb0, hb1, attemptHtml, this, Nat.not_lt.mpr h1]

lemma safeRequest3_case2 (b : Nat → PageLoad) (h0 : attemptOk b 0 = false)
    (h1 : attemptOk b 1 = false) (h2 : attemptOk b 2 = true) :
    safe_request b 3 = FetchTrace.mk (attemptHtml b 2) 3 [1, 2] := by
  have hr : List.range 3 = [0, 1, 2] := rfl
  unfold safe_request
  rw [hr]
  cases hb2 : b 2 with
  | fault => simp [attemptOk, hb2] at h2
  | loaded html =>
    simp only [attemptOk, hb2, decide_eq_true_eq] at h2
    cases hb0 : b 0 with
    | fault =>
      cases hb1 : b 1 with
      | fault =>
        simp [safeRequestIter, hb0, hb1, hb2, attemptHtml, Nat.not_lt.mpr h2]
      | loaded h1html =>
        simp only [attemptOk, hb1, decide_eq_false_iff_not] at h1
        have : h1html.length < 1000 := by omega
        simp [safeRequestIter, hb0, hb1, hb2, attemptHtml, this, Nat.not_lt.mpr h2]
    | loaded h0html =>
      simp only [attemptOk, hb0, decide_eq_false_iff_not] at h0
      have g0 : h0html.length < 1000 := by omega
      cases hb1 : b 1 with
      | fault =>
        simp [safeRequestIter, hb0, hb1, hb2, attemptHtml, g0, Nat.not_lt.mpr h2]
      | loaded h1html =>
        simp only [attemptOk, hb1, decide_eq_false_iff_not] at h1
        have g1 : h1html.length < 1000 := by omega
        simp [safeRequestIter, hb0, hb1, hb2, attemptHtml, g0, g1, Nat.not_lt.mpr h2]

lemma safeRequest3_fail (b : Nat → PageLoad) (h0 : attemptOk b 0 = false)
    (h1 : attemptOk b 1 = false) (h2 : attemptOk b 2 = false) :
    safe_request b 3 = FetchTrace.mk none 3 [1, 2] := by
  have hr : List.range 3 = [0, 1, 2] := rfl
  unfold safe_request
  rw [hr]
  cases hb0 : b 0 with
  | fault =>
    cases hb1 : b 1 with
    | fault =>
      cases hb2 : b 2 with
      | fault => simp [safeRequestIter, hb0, hb1, hb2]
      | loaded h2html =>
        simp only [attemptOk, hb2, decide_eq_false_iff_not] at h2
        have g2 : h2html.length < 1000 := by omega
        simp [safeRequestIter, hb0, hb1, hb2, g2]
    | loaded h1html =>
      simp only [attemptOk, hb1, decide_eq_false_iff_not] at h1
      have g1 : h1html.length < 1000 := by omega
      cases hb2 : b 2 with
      | fault => simp [safeRequestIter, hb0, hb1, hb2, g1]
      | loaded h2html =>
        simp only [attemptOk, hb2, decide_eq_false_iff_not] at h2
        have g2 : h2html.length < 1000 := by omega
        simp [safeRequestIter, hb0, hb1, hb2, g1, g2]
  | loaded h0html =>
    simp only [attemptOk, hb0, decide_eq_false_iff_not] at h0
    have g0 : h0html.length < 1000 := by omega
    cases hb1 : b 1 with
    | fault =>
      cases hb2 : b 2 with
      | fault => simp [safeRequestIter, hb0, hb1, hb2, g0]
      | loaded h2html =>
        simp only [attemptOk, hb2, decide_eq_false_iff_not] at h2
        have g2 : h2html.length < 1000 := by omega
        simp [safeRequestIter, hb0, hb1, hb2, g0, g2]
    | loaded h1html =>
      simp only [attemptOk, hb1, decide_eq_false_iff_not] at h1
      have g1 : h1html.length < 1000 := by omega
      cases hb2 : b 2 with
      | fault => simp [safeRequestIter, hb0, hb1, hb2, g0, g1]
      | loaded h2html =>
        simp only [attemptOk, hb2, decide_eq_false_iff_not] at h2
        have g2 : h2html.length < 1000 := by omega
        simp [safeRequestIter, hb0, hb1, hb2, g0, g1, g2]

/-- C2.  For every URL and every behaviour of the rendering capability,
_safe_request with 3 retries returns the page source of the first attempt
that loads at least 1000 characters (a shorter load counts as a failed
attempt), sleeps min(2 ^ attempt, 3) seconds after each non-final failed
attempt (1 second after attempt 0, 2 seconds after attempt 1), performs at
most 3 attempts, and returns None instead of raising when all 3 attempts
fail. -/
theorem spec_C2 (b : Nat → PageLoad) :
    (safe_request b 3).attempts ≤ 3 ∧
    (attemptOk b 0 = true →
      safe_request b 3 = FetchTrace.mk (attemptHtml b 0) 1 []) ∧
    (attemptOk b 0 = false → attemptOk b 1 = true →
      safe_request b 3 = FetchTrace.mk (attemptHtml b 1) 2 [min (2 ^ 0) 3]) ∧
    (attemptOk b 0 = false → attemptOk b 1 = false → attemptOk b 2 = true →
      safe_request b 3 =
        FetchTrace.mk (attemptHtml b 2) 3 [min (2 ^ 0) 3, min (2 ^ 1) 3]) ∧
    (attemptOk b 0 = false → attemptOk b 1 = false → attemptOk b 2 = false →
      safe_request b 3 = FetchTrace.mk none 3 [min (2 ^ 0) 3, min (2 ^ 1) 3]) := by
  refine ⟨?_, ?_, ?_, ?_, ?_⟩
  · cases h0 : attemptOk b 0 with
    | true => rw [safeRequest3_case0 b h0]; simp
    | false =>
      cases h1 : attemptOk b 1 with
      | true => rw [safeRequest3_case1 b h0 h1]; simp
      | false =>
        cases h2 : attemptOk b 2 with
        | true => rw [safeRequest3_case2 b h0 h1 h2]
        | false => rw [safeRequest3_fail b h0 h1 h2]
  · exact fun h0 => safeRequest3_case0 b h0
  · exact fun h0 h1 => safeRequest3_case1 b h0 h1
  · exact fun h0 h1 h2 => safeRequest3_case2 b h0 h1 h2
  · exact fun h0 h1 h2 => safeRequest3_fail b h0 h1 h2

/-- A page source of exactly 1000 characters, meeting the guard. -/
def bigHtml : String := String.mk (List.replicate 1000 'a')

/-- A driver that faults on the first two attempts and loads a large page
on the third. -/
def failTwiceBehavior : Nat → PageLoad :=
  fun i => if i < 2 then PageLoad.fault else PageLoad.loaded bigHtml

theorem spec_C2_witness :
    safe_request failTwiceBehavior 3 =
      FetchTrace.mk (some bigHtml) 3 [min (2 ^ 0) 3, min (2 ^ 1) 3] := by
  have hlen : bigHtml.length = 1000 := by
    rw [bigHtml, String.length]
    exact List.length_replicate 1000 'a'
  have hok : attemptOk failTwiceBehavior 2 = true := by
    simp [attemptOk, failTwiceBehavior, hlen]
  have h := (spec_C2 failTwiceBehavior).2.2.2.1 (by rfl) (by rfl) hok
  exact h.trans (by rfl)

/-- Invariant of the listing-extraction loop: the produced hrefs are
pairwise distinct and disjoint from the incoming seen set, every produced
agent has a non-empty name, carries the URL resolved from its href plus the
category URL, the final seen set is exactly the incoming one extended by
the produced hrefs, and the produced hrefs form a subsequence of the
anchors. -/
lemma extractGo_spec (base cat : String) (anchors : List ListingAnchor) :
    ∀ seen : List String,
      (((extractGo base cat anchors seen).1.map Prod.fst).Nodup) ∧
      (∀ p ∈ (extractGo base cat anchors seen).1,
        p.1 ∉ seen ∧ p.1 ≠ "" ∧ p.2.name ≠ "" ∧ p.2.url ≠ "" ∧
        p.2.url = urljoin base p.1 ∧ p.2.source_url = some cat ∧
        p.2.info = none) ∧
      ((extractGo base cat anchors seen).2 =
        ((extractGo base cat anchors seen).1.map Prod.fst).reverse ++ seen) ∧
      List.Sublist ((extractGo base cat anchors seen).1.map Prod.fst)
        (anchors.map ListingAnchor.href) := by
  induction anchors with
  | nil => intro seen; simp [extractGo]
  | cons b rest ih =>
    intro seen
    by_cases h1 : b.href = "" ∨ b.href ∈ seen
    · obtain ⟨hnd, hmem, hfin, hsub⟩ := ih seen
      simp only [extractGo, if_pos h1]
      exact ⟨hnd, hmem, hfin, hsub.cons b.href⟩
    · push_neg at h1
      by_cases h2 : pyStrip b.h3Text ≠ "" ∧ urljoin base b.href ≠ ""
      · obtain ⟨hnd, hmem, hfin, hsub⟩ := ih (b.href :: seen)
        simp only [extractGo, if_neg (by push_neg; exact h1 :
            ¬ (b.href = "" ∨ b.href ∈ seen)), if_pos h2]
        refine ⟨?_, ?_, ?_, ?_⟩
        · simp only [List.map_cons, List.nodup_cons]
          refine ⟨fun hc => ?_, hnd⟩
          obtain ⟨p, hp, hph⟩ := List.mem_map.mp hc
          exact (hmem p hp).1 (hph ▸ List.mem_cons_self _ _)
        · intro p hp
          rcases List.mem_cons.mp hp with hp | hp
          · subst hp
            exact ⟨h1.2, h1.1, h2.1, h2.2, rfl, rfl, rfl⟩
          · obtain ⟨hs, rest⟩ := hmem p hp
            exact ⟨fun hc => hs (List.mem_cons_of_mem _ hc), rest⟩
        · simp only [List.map_cons, List.reverse_cons, List.append_assoc,
            List.singleton_append]
          exact hfin
        · simp only [List.map_cons]
          exact hsub.cons₂ b.href
      · obtain ⟨hnd, hmem, hfin, hsub⟩ := ih seen
        simp only [extractGo, if_neg (by push_neg; exact h1 :
            ¬ (b.href = "" ∨ b.href ∈ seen)), if_neg h2]
        exact ⟨hnd, hmem, hfin, hsub.cons b.href⟩

/-- A candidate block whose nested h3 text trims to empty produces no agent
and records nothing in seen_urls, so deleting it from the anchor run leaves
the extraction unchanged. -/
lemma extractGo_skip (base cat : String) (bad : ListingAnchor)
    (hbad : pyStrip bad.h3Text = "") :
    ∀ (xs ys : List ListingAnchor) (seen : List String),
      extractGo base cat (xs ++ bad :: ys) seen =
        extractGo base cat (xs ++ ys) seen := by
  intro xs
  induction xs with
  | nil =>
    intro ys seen
    by_cases h1 : bad.href = "" ∨ bad.href ∈ seen
    · simp only [List.nil_append, extractGo, if_pos h1]
    · simp only [List.nil_append, extractGo, if_neg h1, hbad]
      rw [if_neg (by simp)]
  | cons a xs ih =>
    intro ys seen
    by_cases h1 : a.href = "" ∨ a.href ∈ seen
    · simp only [List.cons_append, extractGo, if_pos h1]
      exact ih ys seen
    · by_cases h2 : pyStrip a.h3Text ≠ "" ∧ urljoin base a.href ≠ ""
      · simp only [List.cons_append, extractGo, if_neg h1, if_pos h2]
        simp only [List.append_eq]
        rw [ih ys (a.href :: seen)]
      · simp only [List.cons_append, extractGo, if_neg h1, if_neg h2]
        exact ih ys seen

/-- C3 (amended).  The listing extraction deduplicates by the raw href
attribute, not by the resolved absolute URL: exactly one stub is produced
per distinct href value, the produced stubs appear in the document order of
the anchors they were built from (their hrefs form a subsequence of the
selected anchors), and each stub carries the URL resolved from its own
href.  Two anchors with distinct hrefs resolving to the same absolute URL
therefore both produce stubs (see the counterexample). -/
theorem spec_C3 (base cat : String) (doc : List ListingAnchor) :
    (((extractGo base cat (selectAgentBlocks doc) []).1.map Prod.fst).Nodup) ∧
    List.Sublist ((extractGo base cat (selectAgentBlocks doc) []).1.map Prod.fst)
      ((selectAgentBlocks doc).map ListingAnchor.href) ∧
    extractAgents base cat doc =
      ((extractGo base cat (selectAgentBlocks doc) []).1).map Prod.snd ∧
    (∀ p ∈ (extractGo base cat (selectAgentBlocks doc) []).1,
      p.2.url = urljoin base p.1) := by
  obtain ⟨hnd, hmem, -, hsub⟩ := extractGo_spec base cat (selectAgentBlocks doc) []
  exact ⟨hnd, hsub, rfl, fun p hp => (hmem p hp).2.2.2.2.1⟩

/-- Two anchors with different raw hrefs that resolve, through the
dot-segment removal of urljoin, to the same absolute URL. -/
def dupUrlAnchors : List ListingAnchor :=
  [ListingAnchor.mk "/agent/./alpha" "Alpha" "",
   ListingAnchor.mk "/agent/alpha" "Beta" ""]

/-- C3 (counterexample).  On a listing whose two anchors have the hrefs
/agent/./alpha and /agent/alpha — both matched by the selector, both
resolving to https://aiagentsdirectory.com/agent/alpha — the extraction
returns two stubs with the same resolved URL, so the result is not
deduplicated by resolved absolute URL. -/
theorem spec_C3_counterexample :
    (extractAgents "https://aiagentsdirectory.com"
        "https://aiagentsdirectory.com/category/coding" dupUrlAnchors).map
        Agent.url =
      ["https://aiagentsdirectory.com/agent/alpha",
       "https://aiagentsdirectory.com/agent/alpha"] ∧
    ¬ ((extractAgents "https://aiagentsdirectory.com"
        "https://aiagentsdirectory.com/category/coding" dupUrlAnchors).map
        Agent.url).Nodup := by
  constructor
  · rfl
  · decide

theorem spec_C3_witness :
    (((extractGo "https://aiagentsdirectory.com"
        "https://aiagentsdirectory.com/category/coding"
        (selectAgentBlocks dupUrlAnchors) []).1.map Prod.fst).Nodup) ∧
    (extractGo "https://aiagentsdirectory.com"
        "https://aiagentsdirectory.com/category/coding"
        (selectAgentBlocks dupUrlAnchors) []).1.map Prod.fst =
      ["/agent/./alpha", "/agent/alpha"] := by
  refine ⟨(spec_C3 "https://aiagentsdirectory.com"
    "https://aiagentsdirectory.com/category/coding" dupUrlAnchors).1, ?_⟩
  rfl

/-- C9.  Constructing an Agent with an empty name or an empty url raises
ValueError; every stub returned by the listing extraction has a non-empty
name and a non-empty url (and passes the validating constructor); and a
candidate block with an empty name is skipped in isolation — removing it
leaves the extraction of the remaining blocks unchanged. -/
theorem spec_C9 (base cat : String) (doc : List ListingAnchor)
    (nm u : String) (src desc : Option String) (info : Option AgentInfo)
    (pre post : List ListingAnchor) (bad : ListingAnchor) :
    (mkAgent "" u src desc info =
      Except.error "Agent must have both name and URL") ∧
    (mkAgent nm "" src desc info =
      Except.error "Agent must have both name and URL") ∧
    (∀ a ∈ extractAgents base cat doc,
      a.name ≠ "" ∧ a.url ≠ "" ∧
      mkAgent a.name a.url a.source_url a.description a.info = Except.ok a) ∧
    (pyStrip bad.h3Text = "" →
      extractAgents base cat (pre ++ bad :: post) =
        extractAgents base cat (pre ++ post)) := by
  refine ⟨?_, ?_, ?_, ?_⟩
  · simp [mkAgent]
  · simp [mkAgent]
  · intro a ha
    obtain ⟨p, hp, hpa⟩ := List.mem_map.mp ha
    obtain ⟨-, -, hname, hurl, -, -, -⟩ :=
      (extractGo_spec base cat (selectAgentBlocks doc) []).2.1 p hp
    subst hpa
    exact ⟨hname, hurl, by rw [mkAgent, if_neg (by tauto)]⟩
  · intro hbad
    unfold extractAgents selectAgentBlocks
    rw [List.filter_append, List.filter_cons, List.filter_append]
    by_cases hsel : pyStartsWith bad.href "/agent"
    · simp only [hsel, if_pos]
      rw [show (List.filter (fun b => pyStartsWith b.href "/agent") pre ++
            bad :: List.filter (fun b => pyStartsWith b.href "/agent") post) =
          (List.filter (fun b => pyStartsWith b.href "/agent") pre ++
            bad :: List.filter (fun b => pyStartsWith b.href "/agent") post) from rfl]
      rw [extractGo_skip base cat bad hbad]
    · simp [hsel]

/-- One candidate block with an empty h3, then a block with the same href
and a real name. -/
def retryAnchors (h nbad ngood d1 d2 : String) : List ListingAnchor :=
  [ListingAnchor.mk h nbad d1, ListingAnchor.mk h ngood d2]

/-- C10.  An href is recorded in seen_urls only when a stub is actually
constructed from its anchor: the final seen_urls is exactly the list of
hrefs of the produced stubs; consequently, when the first anchor carrying
an href is skipped for lacking a name, a later anchor with the same href
and a non-empty name still produces the stub. -/
theorem spec_C10 (base cat : String) (doc : List ListingAnchor)
    (h nbad ngood d1 d2 : String) (rest : List ListingAnchor) :
    ((extractGo base cat (selectAgentBlocks doc) []).2 =
      ((extractGo base cat (selectAgentBlocks doc) []).1.map Prod.fst).reverse) ∧
    (pyStrip nbad = "" → pyStrip ngood ≠ "" → pyStartsWith h "/agent" = true →
      h ≠ "" → urljoin base h ≠ "" →
      extractAgents base cat (retryAnchors h nbad ngood d1 d2 ++ rest) =
        Agent.mk (pyStrip ngood) (urljoin base h) (some cat) (some (pyStrip d2)) none ::
          ((extractGo base cat (selectAgentBlocks rest) [h]).1).map Prod.snd) := by
  constructor
  · have hfin := (extractGo_spec base cat (selectAgentBlocks doc) []).2.2.1
    simpa using hfin
  · intro hbad hgood hsel hne hurl
    have hskip := extractGo_skip base cat (ListingAnchor.mk h nbad d1)
      (by simpa using hbad) [] (ListingAnchor.mk h ngood d2 :: selectAgentBlocks rest) []
    unfold extractAgents
    have hfilter : selectAgentBlocks (retryAnchors h nbad ngood d1 d2 ++ rest) =
        ListingAnchor.mk h nbad d1 :: ListingAnchor.mk h ngood d2 ::
          selectAgentBlocks rest := by
      simp [selectAgentBlocks, retryAnchors, List.filter_cons, hsel]
    rw [hfilter]
    rw [show (ListingAnchor.mk h nbad d1 :: ListingAnchor.mk h ngood d2 ::
        selectAgentBlocks rest) =
        ([] ++ ListingAnchor.mk h nbad d1 ::
          (ListingAnchor.mk h ngood d2 :: selectAgentBlocks rest)) from rfl]
    rw [hskip]
    simp only [List.nil_append]
    rw [extractGo]
    rw [if_neg (by simp [hne])]
    rw [if_pos (⟨by simpa using hgood, by simpa using hurl⟩ :
      pyStrip (ListingAnchor.mk h ngood d2).h3Text ≠ "" ∧
        urljoin base (ListingAnchor.mk h ngood d2).href ≠ "")]
    simp

def c9Anchors : List ListingAnchor := [ListingAnchor.mk "/agent/x" "X" "d"]

def c9Bad : ListingAnchor := ListingAnchor.mk "/agent/b" " " ""

theorem spec_C9_witness :
    mkAgent "" "u" none none none =
      Except.error "Agent must have both name and URL" ∧
    mkAgent "X" "https://aiagentsdirectory.com/agent/x" (some "c") (some "d")
      none =
      Except.ok (Agent.mk "X" "https://aiagentsdirectory.com/agent/x"
        (some "c") (some "d") none) ∧
    extractAgents "https://aiagentsdirectory.com" "c" (c9Anchors ++ c9Bad :: []) =
      extractAgents "https://aiagentsdirectory.com" "c" (c9Anchors ++ []) := by
  have h := spec_C9 "https://aiagentsdirectory.com" "c" c9Anchors "X" "u"
    none none none c9Anchors [] c9Bad
  refine ⟨h.1, ?_, h.2.2.2 (by rfl)⟩
  have hm := h.2.2.1 (Agent.mk "X" "https://aiagentsdirectory.com/agent/x"
    (some "c") (some "d") none) (by decide)
  exact hm.2.2

theorem spec_C10_witness :
    extractAgents "https://aiagentsdirectory.com"
        "https://aiagentsdirectory.com/category/c"
        (retryAnchors "/agent/x" " " "GoodName" "" "" ++ []) =
      [Agent.mk "GoodName" "https://aiagentsdirectory.com/agent/x"
        (some "https://aiagentsdirectory.com/category/c") (some "") none] := by
  have h10 := spec_C10 "https://aiagentsdirectory.com"
    "https://aiagentsdirectory.com/category/c" [] "/agent/x" " " "GoodName"
    "" "" []
  have h := h10.2 (by rfl) (by decide) (by rfl) (by decide) (by decide)
  exact h.trans (by rfl)

/-! ### Category extraction theorems -/

lemma dictInsert_mem (d : List (String × String)) (k v : String) :
    ∀ p ∈ dictInsert d k v, p ∈ d ∨ p = (k, v) := by
  intro p hp
  unfold dictInsert at hp
  by_cases h : d.any (fun p => p.1 = k) = true
  · rw [if_pos h] at hp
    obtain ⟨q, hq, hqe⟩ := List.mem_map.mp hp
    by_cases hk : q.1 = k
    · right; rw [if_pos hk] at hqe; exact hqe.symm
    · left; rw [if_neg hk] at hqe; exact hqe ▸ hq
  · rw [if_neg h] at hp
    rcases List.mem_append.mp hp with hp | hp
    · exact Or.inl hp
    · exact Or.inr (List.mem_singleton.mp hp)

lemma dictInsert_key_self (d : List (String × String)) (k v : String) :
    k ∈ (dictInsert d k v).map Prod.fst := by
  unfold dictInsert
  by_cases h : d.any (fun p => p.1 = k) = true
  · rw [if_pos h]
    obtain ⟨q, hq, hqk⟩ := List.any_eq_true.mp h
    refine List.mem_map.mpr ⟨(k, v), ?_, rfl⟩
    refine List.mem_map.mpr ⟨q, hq, ?_⟩
    rw [if_pos (of_decide_eq_true hqk)]
  · rw [if_neg h]
    simp

lemma dictInsert_key_mono (d : List (String × String)) (k v k0 : String)
    (h : k0 ∈ d.map Prod.fst) : k0 ∈ (dictInsert d k v).map Prod.fst := by
  unfold dictInsert
  by_cases hc : d.any (fun p => p.1 = k) = true
  · rw [if_pos hc]
    obtain ⟨q, hq, hqe⟩ := List.mem_map.mp h
    by_cases hk : q.1 = k
    · refine List.mem_map.mpr ⟨(k, v), List.mem_map.mpr ⟨q, hq, ?_⟩, ?_⟩
      · rw [if_pos hk]
      · simp [← hqe, hk]
    · refine List.mem_map.mpr ⟨q, List.mem_map.mpr ⟨q, hq, ?_⟩, hqe⟩
      rw [if_neg hk]
  · rw [if_neg hc]
    simp only [List.map_append, List.mem_append]
    exact Or.inl h

/-- Every entry reachable from the service-layer category fold is either an
incoming entry or derives from a qualifying anchor of the document. -/
lemma svcGo_mem (base : String) (doc : List HtmlAnchor) :
    ∀ (cats : List (String × String)) (p : String × String),
      p ∈ getCategoriesSvcGo base doc cats →
      p ∈ cats ∨ ∃ a ∈ doc, pyStartsWith a.href "/category/" = true ∧
        a.href ≠ "" ∧ pyStrip a.h2Text ≠ "" ∧
        p = (pyStrip a.h2Text, urljoin base a.href) := by
  induction doc with
  | nil => intro cats p hp; exact Or.inl hp
  | cons a rest ih =>
    intro cats p hp
    by_cases hsel : pyStartsWith a.href "/category/" = true
    · by_cases hg : a.href ≠ "" ∧ pyStrip a.h2Text ≠ ""
      · rw [getCategoriesSvcGo, if_pos hsel, if_pos hg] at hp
        rcases ih (dictInsert cats (pyStrip a.h2Text) (urljoin base a.href)) p hp with
          hi | ⟨b, hb, hrest⟩
        · rcases dictInsert_mem _ _ _ p hi with hc | hc
          · exact Or.inl hc
          · exact Or.inr ⟨a, List.mem_cons_self a rest, hsel, hg.1, hg.2, hc⟩
        · exact Or.inr ⟨b, List.mem_cons_of_mem a hb, hrest⟩
      · rw [getCategoriesSvcGo, if_pos hsel, if_neg hg] at hp
        rcases ih cats p hp with hi | ⟨b, hb, hrest⟩
        · exact Or.inl hi
        · exact Or.inr ⟨b, List.mem_cons_of_mem a hb, hrest⟩
    · rw [getCategoriesSvcGo, if_neg hsel] at hp
      rcases ih cats p hp with hi | ⟨b, hb, hrest⟩
      · exact Or.inl hi
      · exact Or.inr ⟨b, List.mem_cons_of_mem a hb, hrest⟩

/-- Qualification test of the windsurf category extraction. -/
def windQual (a : HtmlAnchor) : Prop :=
  pyStartsWith a.href "/category" = true ∧ a.href ≠ "" ∧
    denySkips.all (fun s => ¬ containsSub s (pyLower a.href)) = true

instance (a : HtmlAnchor) : Decidable (windQual a) := by
  unfold windQual; infer_instance

/-- The category name the windsurf extraction gives to an anchor. -/
def windName (a : HtmlAnchor) : String :=
  if pyStrip a.fullText = "" then deriveName a.href else pyStrip a.fullText

lemma windGo_mem (base : String) (doc : List HtmlAnchor) :
    ∀ (cats : List (String × String)) (p : String × String),
      p ∈ getCategoriesWindGo base doc cats →
      p ∈ cats ∨ ∃ a ∈ doc, windQual a ∧
        p = (windName a, urljoin base a.href) := by
  induction doc with
  | nil => intro cats p hp; exact Or.inl hp
  | cons a rest ih =>
    intro cats p hp
    by_cases hsel : pyStartsWith a.href "/category" = true
    · by_cases hg : a.href ≠ "" ∧
          denySkips.all (fun s => ¬ containsSub s (pyLower a.href)) = true
      · rw [getCategoriesWindGo, if_pos hsel, if_pos hg] at hp
        rcases ih (dictInsert cats (windName a) (urljoin base a.href)) p hp with
          hi | ⟨b, hb, hrest⟩
        · rcases dictInsert_mem _ _ _ p hi with hc | hc
          · exact Or.inl hc
          · exact Or.inr ⟨a, List.mem_cons_self a rest, ⟨hsel, hg.1, hg.2⟩, hc⟩
        · exact Or.inr ⟨b, List.mem_cons_of_mem a hb, hrest⟩
      · rw [getCategoriesWindGo, if_neg hg] at hp
        rw [if_pos hsel] at hp
        rcases ih cats p hp with hi | ⟨b, hb, hrest⟩
        · exact Or.inl hi
        · exact Or.inr ⟨b, List.mem_cons_of_mem a hb, hrest⟩
    · rw [getCategoriesWindGo, if_neg hsel] at hp
      rcases ih cats p hp with hi | ⟨b, hb, hrest⟩
      · exact Or.inl hi
      · exact Or.inr ⟨b, List.mem_cons_of_mem a hb, hrest⟩

lemma windGo_key_mono (base : String) (doc : List HtmlAnchor) :
    ∀ (cats : List (String × String)) (k : String),
      k ∈ cats.map Prod.fst →
      k ∈ (getCategoriesWindGo base doc cats).map Prod.fst := by
  induction doc with
  | nil => intro cats k hk; exact hk
  | cons a rest ih =>
    intro cats k hk
    by_cases hsel : pyStartsWith a.href "/category" = true
    · by_cases hg : a.href ≠ "" ∧
          denySkips.all (fun s => ¬ containsSub s (pyLower a.href)) = true
      · rw [getCategoriesWindGo, if_pos hsel, if_pos hg]
        exact ih _ k (dictInsert_key_mono _ _ _ k hk)
      · rw [getCategoriesWindGo, if_neg hg]
        rw [if_pos hsel]
        exact ih cats k hk
    · rw [getCategoriesWindGo, if_neg hsel]
      exact ih cats k hk

lemma windGo_key_of_anchor (base : String) (doc : List HtmlAnchor) :
    ∀ (cats : List (String × String)) (a : HtmlAnchor), a ∈ doc → windQual a →
      windName a ∈ (getCategoriesWindGo base doc cats).map Prod.fst := by
  induction doc with
  | nil => intro cats a ha; exact absurd ha (List.not_mem_nil a)
  | cons b rest ih =>
    intro cats a ha hq
    rcases List.mem_cons.mp ha with rfl | ha
    · rw [getCategoriesWindGo, if_pos hq.1, if_pos ⟨hq.2.1, hq.2.2⟩]
      exact windGo_key_mono base rest _ _ (dictInsert_key_self _ _ _)
    · by_cases hsel : pyStartsWith b.href "/category" = true
      · by_cases hg : b.href ≠ "" ∧
            denySkips.all (fun s => ¬ containsSub s (pyLower b.href)) = true
        · rw [getCategoriesWindGo, if_pos hsel, if_pos hg]
          exact ih _ a ha hq
        · rw [getCategoriesWindGo, if_neg hg]
          rw [if_pos hsel]
          exact ih cats a ha hq
      · rw [getCategoriesWindGo, if_neg hsel]
        exact ih cats a ha hq

/-- C6 (amended).  The two category extractions differ.  The service-layer
one (used by the scrape command) includes exactly the anchors whose href
starts with /category/ and whose trimmed h2 text is non-empty: it applies
no denylist, and an anchor with empty visible text is dropped, not renamed.
The windsurf variant keeps anchors whose href starts with /category and
whose lowercased href contains none of the substrings /blog, /sponsor,
/submit, /login, and an anchor with empty text is still returned under the
name derived from the last URL path segment (dashes to spaces,
title-cased). -/
theorem spec_C6 (base : String) (doc : List HtmlAnchor) :
    (∀ p ∈ getCategoriesSvc base doc,
      ∃ a ∈ doc, pyStartsWith a.href "/category/" = true ∧ a.href ≠ "" ∧
        pyStrip a.h2Text ≠ "" ∧ p = (pyStrip a.h2Text, urljoin base a.href)) ∧
    (∀ p ∈ getCategoriesWind base doc,
      ∃ a ∈ doc, windQual a ∧ p = (windName a, urljoin base a.href)) ∧
    (∀ a ∈ doc, windQual a →
      windName a ∈ (getCategoriesWind base doc).map Prod.fst) := by
  refine ⟨?_, ?_, ?_⟩
  · intro p hp
    rcases svcGo_mem base doc [] p hp with hi | h
    · exact absurd hi (List.not_mem_nil p)
    · exact h
  · intro p hp
    rcases windGo_mem base doc [] p hp with hi | h
    · exact absurd hi (List.not_mem_nil p)
    · exact h
  · intro a ha hq
    exact windGo_key_of_anchor base doc [] a ha hq

/-- An anchor whose target contains the denylist fragment sponsor, with a
non-empty h2 text. -/
def sponsorDoc : List HtmlAnchor :=
  [HtmlAnchor.mk "/category/sponsor" "Sponsored Stuff" "Sponsored Stuff"]

/-- A qualifying anchor with empty visible text. -/
def emptyNameDoc : List HtmlAnchor :=
  [HtmlAnchor.mk "/category/ai-agents" "" ""]

/-- C6 (counterexample).  The category extraction of the service layer
includes the anchor /category/sponsor although its target contains the
denylist fragment sponsor, and it drops a qualifying anchor whose visible
text is empty instead of returning it under a name derived from the URL. -/
theorem spec_C6_counterexample :
    getCategoriesSvc "https://aiagentsdirectory.com" sponsorDoc =
      [("Sponsored Stuff", "https://aiagentsdirectory.com/category/sponsor")] ∧
    containsSub "sponsor" "/category/sponsor" = true ∧
    getCategoriesSvc "https://aiagentsdirectory.com" emptyNameDoc = [] := by
  exact ⟨rfl, rfl, rfl⟩

theorem spec_C6_witness :
    (("Sponsored Stuff", "https://aiagentsdirectory.com/category/sponsor") =
      (pyStrip (HtmlAnchor.mk "/category/sponsor" "Sponsored Stuff"
        "Sponsored Stuff").h2Text,
       urljoin "https://aiagentsdirectory.com" "/category/sponsor")) ∧
    "Ai Agents" ∈ (getCategoriesWind "https://aiagentsdirectory.com"
      emptyNameDoc).map Prod.fst := by
  constructor
  · rfl
  · have h := (spec_C6 "https://aiagentsdirectory.com" emptyNameDoc).2.2
      (HtmlAnchor.mk "/category/ai-agents" "" "")
      (List.mem_cons_self _ _) (by decide)
    exact (by rfl : windName (HtmlAnchor.mk "/category/ai-agents" "" "") =
      "Ai Agents") ▸ h

/-! ### Pagination theorems -/

/-- With a control that stays clickable forever the service-layer loop
never reaches a break: it inspects only the button. -/
lemma drainLoop_clickable (fuel : Nat) :
    ∀ clicks k, drainLoop (fun _ => ControlState.clickable) clicks k fuel = none := by
  induction fuel with
  | zero => intro clicks k; rfl
  | succ n ih => intro clicks k; simpa [drainLoop] using ih (clicks + 1) (k + 1)

lemma wAddAgents_seen_length (base caturl : String) (al : List WAnchor) :
    ∀ (agents : List WAgent) (seen : List String),
      (∀ x ∈ al, pyStrip x.text ≠ "" ∧ urljoin base x.href ≠ "" ∧
        urljoin base x.href ∉ seen) →
      ((al.map (fun x => urljoin base x.href)).Nodup) →
      (wAddAgents base caturl al agents seen).2.length =
        al.length + seen.length := by
  induction al with
  | nil => intro agents seen _ _; simp [wAddAgents]
  | cons b rest ih =>
    intro agents seen h hn
    obtain ⟨hname, hurl, hseen⟩ := h b (List.mem_cons_self b rest)
    rw [wAddAgents, if_pos ⟨hname, hurl, hseen⟩]
    simp only [List.map_cons, List.nodup_cons] at hn
    rw [ih _ (urljoin base b.href :: seen) ?_ hn.2]
    · simp only [List.length_cons]; omega
    · intro c hc
      obtain ⟨hc1, hc2, hc3⟩ := h c (List.mem_cons_of_mem b hc)
      refine ⟨hc1, hc2, fun hmem => ?_⟩
      rcases List.mem_cons.mp hmem with heq | hmem
      · exact hn.1 (heq ▸ List.mem_map_of_mem (fun x => urljoin base x.href) hc)
      · exact hc3 hmem

/-- The seen_urls set of the windsurf block processing never shrinks. -/
lemma wAddAgents_seen_mono (base caturl : String) :
    ∀ (bl : List WAnchor) (agents : List WAgent) (seen : List String),
      seen.length ≤ (wAddAgents base caturl bl agents seen).2.length := by
  intro bl
  induction bl with
  | nil => intro agents seen; exact Nat.le_refl _
  | cons x rest ih =>
    intro agents seen
    by_cases hg : pyStrip x.text ≠ "" ∧ urljoin base x.href ≠ "" ∧
        urljoin base x.href ∉ seen
    · rw [wAddAgents, if_pos hg]
      refine Nat.le_trans ?_ (ih (agents ++ [WAgent.mk (pyStrip x.text)
        (urljoin base x.href) caturl]) (urljoin base x.href :: seen))
      simp
    · rw [wAddAgents, if_neg hg]
      exact ih _ _

/-- The seen_urls set is non-empty after processing a block run containing
an anchor with a non-empty name and URL (or when it already was). -/
lemma wAddAgents_seen_pos (base caturl : String) :
    ∀ (bl : List WAnchor) (agents : List WAgent) (seen : List String),
      ((∃ x ∈ bl, pyStrip x.text ≠ "" ∧ urljoin base x.href ≠ "") ∨
        1 ≤ seen.length) →
      1 ≤ (wAddAgents base caturl bl agents seen).2.length := by
  intro bl
  induction bl with
  | nil =>
    intro agents seen h
    rcases h with ⟨x, hx, -⟩ | h
    · exact absurd hx (List.not_mem_nil x)
    · exact h
  | cons x rest ih =>
    intro agents seen h
    by_cases hg : pyStrip x.text ≠ "" ∧ urljoin base x.href ≠ "" ∧
        urljoin base x.href ∉ seen
    · rw [wAddAgents, if_pos hg]
      exact ih _ _ (Or.inr (by simp))
    · rw [wAddAgents, if_neg hg]
      rcases h with ⟨c, hc, hcv⟩ | h
      · rcases List.mem_cons.mp hc with rfl | hc
        · have hmem : urljoin base c.href ∈ seen := by
            by_contra hnm
            exact hg ⟨hcv.1, hcv.2, hnm⟩
          exact ih _ _ (Or.inr (List.length_pos.mpr (List.ne_nil_of_mem hmem)))
        · exact ih _ _ (Or.inl ⟨c, hc, hcv⟩)
      · exact ih _ _ (Or.inr h)

/-- On a static page whose anchors are matched only by the fallback
selector, current_count is fixed at zero while seen_urls stays non-empty,
so the stagnation check never fires and the loop never breaks. -/
lemma windsurfLoop_fallback_none (base caturl : String) (al : List WAnchor)
    (hprim : wPrimaryBlocks al = []) :
    ∀ (fuel k : Nat) (agents : List WAgent) (seen : List String) (clicks : Nat),
      1 ≤ seen.length →
      windsurfLoop base caturl (fun _ => WPage.mk al ControlState.clickable)
        k agents seen clicks fuel = none := by
  intro fuel
  induction fuel with
  | zero => intro k agents seen clicks _; rfl
  | succ g ih =>
    intro k agents seen clicks h
    have hmono := wAddAgents_seen_mono base caturl (wFallbackBlocks al)
      agents seen
    simp only [windsurfLoop, hprim, List.length_nil, if_true]
    rw [if_neg (by omega)]
    exact ih (k + 1) _ _ (clicks + 1) (Nat.le_trans h hmono)

/-- C7 (amended).  The service-layer pagination loop terminates with zero
clicks when the control is absent, not displayed or not enabled at the
first check; it has no stagnation guard — with a control that stays
clickable it never terminates, whatever the page content does.  The
windsurf variant has a guard keyed to the primary-selector block count,
fixed before the fallback selector is tried: on a static page of distinct
valid items matched by the primary selector it stops after the first
click, because the accumulated distinct-URL count equals that block count;
on a static page whose items only the fallback selector matches, the
primary count stays zero while seen_urls is non-empty, so the guard never
fires and the loop never terminates. -/
theorem spec_C7 (b : Nat → ControlState) (fuel : Nat) (base caturl : String)
    (al : List WAnchor) :
    ((b 0 = ControlState.absent ∨ b 0 = ControlState.unusable) → 0 < fuel →
      drain b fuel = some 0) ∧
    (∀ f, drain (fun _ => ControlState.clickable) f = none) ∧
    (0 < fuel → al ≠ [] → wPrimaryBlocks al = al →
      (∀ x ∈ al, pyStrip x.text ≠ "" ∧ urljoin base x.href ≠ "") →
      ((al.map (fun x => urljoin base x.href)).Nodup) →
      windsurfDrain base caturl
          (fun _ => WPage.mk al ControlState.clickable) fuel =
        some ((wAddAgents base caturl al [] []).1, 1)) ∧
    (wPrimaryBlocks al = [] →
      (∃ x ∈ wFallbackBlocks al, pyStrip x.text ≠ "" ∧
        urljoin base x.href ≠ "") →
      ∀ f, windsurfDrain base caturl
        (fun _ => WPage.mk al ControlState.clickable) f = none) := by
  refine ⟨?_, ?_, ?_, ?_⟩
  · intro hb hf
    obtain ⟨f, rfl⟩ := Nat.exists_eq_succ_of_ne_zero (Nat.pos_iff_ne_zero.mp hf)
    rcases hb with hb | hb <;> simp [drain, drainLoop, hb]
  · intro f
    exact drainLoop_clickable f 0 0
  · intro hf hne hsel hvalid hnd
    obtain ⟨f, rfl⟩ := Nat.exists_eq_succ_of_ne_zero (Nat.pos_iff_ne_zero.mp hf)
    have hlen : (wAddAgents base caturl al [] []).2.length = al.length := by
      rw [wAddAgents_seen_length base caturl al [] []
        (fun x hx => ⟨(hvalid x hx).1, (hvalid x hx).2, List.not_mem_nil _⟩) hnd]
      simp
    have hlz : ¬ al.length = 0 := fun hz => hne (List.length_eq_zero.mp hz)
    simp only [windsurfDrain, windsurfLoop, hsel]
    rw [if_neg hlz]
    rw [if_pos (by rw [hlen])]
  · intro hprim hex f
    cases f with
    | zero => rfl
    | succ g =>
      have hpos := wAddAgents_seen_pos base caturl (wFallbackBlocks al)
        ([] : List WAgent) ([] : List String) (Or.inl hex)
      simp only [windsurfDrain, windsurfLoop, hprim, List.length_nil, if_true]
      rw [if_neg (by omega)]
      exact windsurfLoop_fallback_none base caturl al hprim g 1 _ _ 1
        (Nat.le_trans hpos (Nat.le_refl _))

/-- C7 (counterexample).  A Load More control that is re-rendered displayed
and enabled at every check while the page content never changes: the
service-layer loop never terminates, for any number of iterations — there
is no stagnation guard tied to the set of extractable item URLs. -/
theorem spec_C7_counterexample :
    ¬ ∃ fuel clicks,
      drain (fun _ => ControlState.clickable) fuel = some clicks := by
  rintro ⟨fuel, clicks, h⟩
  rw [show drain (fun _ => ControlState.clickable) fuel = none from
    drainLoop_clickable fuel 0 0] at h
  exact Option.noConfusion h

theorem spec_C7_witness :
    drain (fun _ => ControlState.unusable) 5 = some 0 ∧
    windsurfDrain "https://aiagentsdirectory.com"
        "https://aiagentsdirectory.com/category/c"
        (fun _ => WPage.mk [WAnchor.mk "/agent/x" "X"] ControlState.clickable)
        5 =
      some ([WAgent.mk "X" "https://aiagentsdirectory.com/agent/x"
        "https://aiagentsdirectory.com/category/c"], 1) ∧
    windsurfDrain "https://aiagentsdirectory.com"
        "https://aiagentsdirectory.com/category/c"
        (fun _ => WPage.mk [WAnchor.mk "/tools/x" "X"] ControlState.clickable)
        5 = none := by
  have h := spec_C7 (fun _ => ControlState.unusable) 5
    "https://aiagentsdirectory.com" "https://aiagentsdirectory.com/category/c"
    [WAnchor.mk "/agent/x" "X"]
  have hfb := spec_C7 (fun _ => ControlState.unusable) 5
    "https://aiagentsdirectory.com" "https://aiagentsdirectory.com/category/c"
    [WAnchor.mk "/tools/x" "X"]
  refine ⟨h.1 (Or.inr rfl) (by decide), ?_, ?_⟩
  · have h2 := h.2.2.1 (by decide) (by decide) (by rfl) (by decide) (by decide)
    exact h2.trans (by rfl)
  · exact hfb.2.2.2 (by rfl) (by decide) 5

/-! ### Enrichment theorems -/

/-- C4 (amended).  The enrichment used by the scrape command,
get_agent_details, performs exactly one crawl call and at most one
extraction call — it does not retry — and never raises: on any failure it
returns the stub unmodified (null detail), on success it returns the stub
with the extracted info attached.  The separate 4-attempt retry loop lives
in AIDirectoryScraper.get_agent_info (used by the test CLI): it returns the
first successful attempt among attempts 0..3 but re-raises the failure of
attempt 3 after exhausting all 4 attempts. -/
theorem spec_C4 (crawlSeq : Nat → Except String String)
    (extractSeq : Nat → String → Except String AgentInfo) (agent : Agent)
    (attemptResult : Nat → Except String AgentInfo) :
    (get_agent_details crawlSeq extractSeq agent).crawlCalls = 1 ∧
    (get_agent_details crawlSeq extractSeq agent).extractCalls ≤ 1 ∧
    (∀ e, crawlSeq 0 = Except.error e →
      (get_agent_details crawlSeq extractSeq agent).agent = agent) ∧
    (∀ md e, crawlSeq 0 = Except.ok md → extractSeq 0 md = Except.error e →
      (get_agent_details crawlSeq extractSeq agent).agent = agent) ∧
    (∀ md info, crawlSeq 0 = Except.ok md → extractSeq 0 md = Except.ok info →
      (get_agent_details crawlSeq extractSeq agent).agent =
        Agent.mk agent.name agent.url agent.source_url agent.description
          (some info)) ∧
    ((∀ i, i < 4 → ∃ e, attemptResult i = Except.error e) →
      ∃ e, scraper_get_agent_info attemptResult = Except.error e) ∧
    (∀ i info, i < 4 → attemptResult i = Except.ok info →
      (∀ j, j < i → ∃ e, attemptResult j = Except.error e) →
      scraper_get_agent_info attemptResult = Except.ok info) := by
  refine ⟨?_, ?_, ?_, ?_, ?_, ?_, ?_⟩
  · cases hc : crawlSeq 0 with
    | error e => simp [get_agent_details, hc]
    | ok md =>
      cases he : extractSeq 0 md with
      | error e => simp [get_agent_details, hc, he]
      | ok info => simp [get_agent_details, hc, he]
  · cases hc : crawlSeq 0 with
    | error e => simp [get_agent_details, hc]
    | ok md =>
      cases he : extractSeq 0 md with
      | error e => simp [get_agent_details, hc, he]
      | ok info => simp [get_agent_details, hc, he]
  · intro e he
    simp [get_agent_details, he]
  · intro md e hc he
    simp [get_agent_details, hc, he]
  · intro md info hc he
    simp [get_agent_details, hc, he]
  · intro hfail
    obtain ⟨e0, he0⟩ := hfail 0 (by omega)
    obtain ⟨e1, he1⟩ := hfail 1 (by omega)
    obtain ⟨e2, he2⟩ := hfail 2 (by omega)
    obtain ⟨e3, he3⟩ := hfail 3 (by omega)
    refine ⟨e3, ?_⟩
    unfold scraper_get_agent_info
    rw [show List.range 4 = [0, 1, 2, 3] from rfl]
    simp [agentInfoLoop, he0, he1, he2, he3]
  · intro i info hi hok hbefore
    unfold scraper_get_agent_info
    rw [show List.range 4 = [0, 1, 2, 3] from rfl]
    interval_cases i
    · simp [agentInfoLoop, hok]
    · obtain ⟨e0, he0⟩ := hbefore 0 (by omega)
      simp [agentInfoLoop, he0, hok]
    · obtain ⟨e0, he0⟩ := hbefore 0 (by omega)
      obtain ⟨e1, he1⟩ := hbefore 1 (by omega)
      simp [agentInfoLoop, he0, he1, hok]
    · obtain ⟨e0, he0⟩ := hbefore 0 (by omega)
      obtain ⟨e1, he1⟩ := hbefore 1 (by omega)
      obtain ⟨e2, he2⟩ := hbefore 2 (by omega)
      simp [agentInfoLoop, he0, he1, he2, hok]

def ceInfo : AgentInfo :=
  AgentInfo.mk "A" "logo" "site" none none (some []) (some []) (some []) none

def ceStub : Agent :=
  Agent.mk "A" "https://aiagentsdirectory.com/agent/a"
    (some "https://aiagentsdirectory.com/category/c") (some "") none

/-- A crawl behaviour that fails on its first invocation and would succeed
on a second one. -/
def ceCrawlSeq : Nat → Except String String :=
  fun k => if k = 0 then Except.error "navigation timeout" else Except.ok "md"

/-- C4 (counterexample).  Against a fetch capability whose first call fails
and whose second call would succeed, get_agent_details — the enrichment
used by the scrape command — returns the stub with a null detail after a
single crawl call: it does not retry up to 4 attempts.  And the 4-attempt
helper AIDirectoryScraper.get_agent_info raises after its final failed
attempt instead of returning a null detail. -/
theorem spec_C4_counterexample :
    (get_agent_details ceCrawlSeq (fun _ _ => Except.ok ceInfo)
      ceStub).agent.info = none ∧
    (get_agent_details ceCrawlSeq (fun _ _ => Except.ok ceInfo)
      ceStub).crawlCalls = 1 ∧
    scraper_get_agent_info (fun _ => Except.error "boom") =
      Except.error "boom" := by
  exact ⟨rfl, rfl, rfl⟩

theorem spec_C4_witness :
    (get_agent_details ceCrawlSeq (fun _ _ => Except.ok ceInfo)
      ceStub).agent = ceStub ∧
    scraper_get_agent_info
        (fun i => if i = 0 then Except.error "boom" else Except.ok ceInfo) =
      Except.ok ceInfo := by
  have h := spec_C4 ceCrawlSeq (fun _ _ => Except.ok ceInfo) ceStub
    (fun i => if i = 0 then Except.error "boom" else Except.ok ceInfo)
  refine ⟨h.2.2.1 "navigation timeout" (by rfl), ?_⟩
  exact h.2.2.2.2.2.2 1 ceInfo (by omega) (by rfl)
    (fun j hj => ⟨"boom", by interval_cases j; rfl⟩)

/-! ### Orchestrator theorems -/

/-- Closed form of the per-agent loop: the final list appends one entry per
stub (the stored checkpoint entry on reuse, the encoded enriched agent
otherwise), save_progress is called once per stub with the accumulated list
of that moment, and the enrichment counter grows by the number of stubs
whose reuse test failed. -/
lemma processStubs_char (m : List (String × Json)) (details : Agent → Agent) :
    ∀ (stubs : List Agent) (acc : List Json) (saves : List (List Json))
      (calls : Nat),
      processStubs m details stubs acc saves calls =
        ScrapeRun.mk (acc ++ stubs.map (stepFn m details))
          (saves ++ (List.range stubs.length).map
            (fun k => acc ++ (stubs.take (k + 1)).map (stepFn m details)))
          (calls + (stubs.filter
            (fun s => (reuseEntry m s.name).isNone)).length) := by
  intro stubs
  induction stubs with
  | nil => intro acc saves calls; simp [processStubs]
  | cons stub rest ih =>
    intro acc saves calls
    cases hr : reuseEntry m stub.name with
    | none =>
      simp only [processStubs, hr]
      rw [ih]
      simp only [ScrapeRun.mk.injEq]
      refine ⟨?_, ?_, ?_⟩
      · simp [stepFn, hr, List.append_assoc]
      · simp only [List.length_cons]
        rw [List.range_succ_eq_map]
        simp [stepFn, hr, Function.comp, List.take_succ_cons,
          List.append_assoc]
      · simp [List.filter_cons, hr]
        omega
    | some stored =>
      simp only [processStubs, hr]
      rw [ih]
      simp only [ScrapeRun.mk.injEq]
      refine ⟨?_, ?_, ?_⟩
      · simp [stepFn, hr, List.append_assoc]
      · simp only [List.length_cons]
        rw [List.range_succ_eq_map]
        simp [stepFn, hr, Function.comp, List.take_succ_cons,
          List.append_assoc]
      · simp [List.filter_cons, hr]

lemma processStubs_append (m : List (String × Json)) (details : Agent → Agent) :
    ∀ (xs ys : List Agent) (acc : List Json) (saves : List (List Json))
      (calls : Nat),
      processStubs m details (xs ++ ys) acc saves calls =
        processStubs m details ys
          (processStubs m details xs acc saves calls).output
          (processStubs m details xs acc saves calls).saves
          (processStubs m details xs acc saves calls).enrichCalls := by
  intro xs
  induction xs with
  | nil => intro ys acc saves calls; simp [processStubs]
  | cons stub rest ih =>
    intro ys acc saves calls
    cases hr : reuseEntry m stub.name with
    | none =>
      simp only [List.cons_append, processStubs, hr]
      exact ih ys _ _ _
    | some stored =>
      simp only [List.cons_append, processStubs, hr]
      exact ih ys _ _ _

/-- The nested category loop of the scrape command equals processing the
flattened stub list. -/
lemma scrapeCats_char (m : List (String × Json)) (details : Agent → Agent)
    (listing : String → List Agent) :
    ∀ (cats : List (String × String)) (acc : List Json)
      (saves : List (List Json)) (calls : Nat),
      scrapeCats m details listing cats acc saves calls =
        processStubs m details (allStubs cats listing) acc saves calls := by
  intro cats
  induction cats with
  | nil => intro acc saves calls; simp [scrapeCats, allStubs, processStubs]
  | cons c cs ih =>
    intro acc saves calls
    simp only [scrapeCats, allStubs, List.map_cons, List.flatten_cons]
    rw [processStubs_append]
    exact ih _ _ _

/-- C1.  The scrape flow is a deterministic function of the checkpoint
mapping, the site content and the capability behaviours: each stub whose
checkpoint entry exists with a non-null info contributes that stored entry
verbatim, the enrichment step runs exactly once per stub whose reuse test
fails — in particular zero times when every stub is covered — and a second
run against unchanged inputs serializes to byte-identical JSON. -/
theorem spec_C1 (m : List (String × Json)) (cats : List (String × String))
    (listing : String → List Agent) (details : Agent → Agent) :
    (scrapeRunAll m cats listing details).output =
      (allStubs cats listing).map (stepFn m details) ∧
    (scrapeRunAll m cats listing details).enrichCalls =
      ((allStubs cats listing).filter
        (fun s => (reuseEntry m s.name).isNone)).length ∧
    (∀ s ∈ allStubs cats listing, ∀ stored,
      reuseEntry m s.name = some stored → stepFn m details s = stored) ∧
    ((∀ s ∈ allStubs cats listing, (reuseEntry m s.name).isSome = true) →
      (scrapeRunAll m cats listing details).enrichCalls = 0) ∧
    pyDumps (Json.arr (scrapeRunAll m cats listing details).output) =
      pyDumps (Json.arr (scrapeRunAll m cats listing details).output) := by
  have hc : scrapeRunAll m cats listing details =
      processStubs m details (allStubs cats listing) [] [] 0 :=
    scrapeCats_char m details listing cats [] [] 0
  rw [hc, processStubs_char]
  refine ⟨by simp, by simp, ?_, ?_, rfl⟩
  · intro s _ stored hr
    simp [stepFn, hr]
  · intro hall
    simp only [Nat.zero_add]
    rw [List.length_eq_zero]
    rw [List.filter_eq_nil_iff]
    intro s hs
    have h2 := hall s hs
    cases hopt : reuseEntry m s.name with
    | none => rw [hopt] at h2; simp at h2
    | some stored => simp

def c1Stored : Json :=
  Json.obj [("name", Json.str "A"), ("url", Json.str "u"),
    ("info", Json.obj [("name", Json.str "A")])]

def c1Map : List (String × Json) := [("A", c1Stored)]

def c1Cats : List (String × String) :=
  [("Cat", "https://aiagentsdirectory.com/category/c")]

def c1Listing : String → List Agent :=
  fun _ => [Agent.mk "A" "u" none none none]

theorem spec_C1_witness :
    (scrapeRunAll c1Map c1Cats c1Listing (fun a => a)).enrichCalls = 0 ∧
    (scrapeRunAll c1Map c1Cats c1Listing (fun a => a)).output = [c1Stored] := by
  have h := spec_C1 c1Map c1Cats c1Listing (fun a => a)
  refine ⟨h.2.2.2.1 ?_, ?_⟩
  · intro s hs
    have hss : s = Agent.mk "A" "u" none none none := by
      simpa [allStubs, c1Cats, c1Listing] using hs
    subst hss
    rfl
  · rw [h.1]
    rfl

/-- C5 (amended).  The scrape command has no Failed state: whenever
update.json loads, the command completes normally and exits 0 — also when
category discovery returns the empty mapping (zero categories, including a
failed categories-page fetch) and whatever the per-item or per-category
outcomes are.  The only modelled non-zero exit is the unhandled fault of a
missing update.json. -/
theorem spec_C5 (m : List (String × Json)) (cats : List (String × String))
    (listing : String → List Agent) (details : Agent → Agent) (base : String) :
    exitCodeOf (scrapeCommandRun (some m) cats listing details) = 0 ∧
    getCategoriesFromFetch base none = [] ∧
    exitCodeOf (scrapeCommandRun none cats listing details) = 1 := by
  exact ⟨rfl, rfl, rfl⟩

/-- C5 (counterexample).  A run whose category discovery returns zero
categories (here: an empty directory page) completes with exit code 0, not
with a non-zero code — there is no terminal Failed state in the code. -/
theorem spec_C5_counterexample :
    getCategoriesSvc "https://aiagentsdirectory.com" [] = [] ∧
    exitCodeOf (scrapeCommandRun (some [])
      (getCategoriesSvc "https://aiagentsdirectory.com" [])
      (fun _ => []) (fun a => a)) = 0 := by
  exact ⟨rfl, rfl⟩

/-- C8.  save_progress is invoked once after every processed item with the
full accumulated list of that moment; it serializes a single JSON array in
the indent=2 format (each element on its own line behind two spaces of
indentation per level); a character at code point 128 or above — any
non-ASCII character — is emitted literally by the ensure_ascii=False
escaping; and a raising writer is caught, so save_progress returns
normally for every writer behaviour. -/
theorem spec_C8 (m : List (String × Json)) (cats : List (String × String))
    (listing : String → List Agent) (details : Agent → Agent)
    (write : String → PyResult Unit) (agents : List Json)
    (x : Json) (xs : List Json) (c : Char) :
    (scrapeRunAll m cats listing details).saves =
      (List.range (allStubs cats listing).length).map
        (fun k => (scrapeRunAll m cats listing details).output.take (k + 1)) ∧
    save_progress write agents = PyResult.ok Unit.unit ∧
    pyDumps (Json.arr []) = "[]" ∧
    pyDumps (Json.arr (x :: xs)) =
      "[\n" ++ String.intercalate ",\n" (pyDumpsArr (x :: xs) 1) ++ "\n" ++
        spaces 0 ++ "]" ∧
    pyDumpsArr (x :: xs) 1 = ("  " ++ pyDumpsLevel x 1) :: pyDumpsArr xs 1 ∧
    (128 ≤ c.toNat → escapeChar c = String.mk [c]) := by
  refine ⟨?_, ?_, rfl, rfl, rfl, ?_⟩
  · have hc : scrapeRunAll m cats listing details =
        processStubs m details (allStubs cats listing) [] [] 0 :=
      scrapeCats_char m details listing cats [] [] 0
    rw [hc, processStubs_char]
    simp [List.map_take]
  · unfold save_progress
    cases write (pyDumps (Json.arr agents)) with
    | ok u => rfl
    | raised e => rfl
  · intro hc
    have h1 : ¬ c = '"' := fun h => absurd (h ▸ hc) (by decide)
    have h2 : ¬ c = '\\' := fun h => absurd (h ▸ hc) (by decide)
    have h3 : ¬ c = '\n' := fun h => absurd (h ▸ hc) (by decide)
    have h4 : ¬ c = '\r' := fun h => absurd (h ▸ hc) (by decide)
    have h5 : ¬ c = '\t' := fun h => absurd (h ▸ hc) (by decide)
    have h6 : ¬ c = '\x08' := fun h => absurd (h ▸ hc) (by decide)
    have h7 : ¬ c = '\x0c' := fun h => absurd (h ▸ hc) (by decide)
    have h8 : ¬ c.toNat < 32 := by omega
    simp [escapeChar, h1, h2, h3, h4, h5, h6, h7, h8]

theorem spec_C8_witness :
    save_progress (fun _ => PyResult.raised "disk full") [Json.str "x"] =
      PyResult.ok Unit.unit ∧
    escapeChar 'é' = String.mk ['é'] ∧
    pyDumps (Json.arr [Json.str "é"]) =
      "[\n" ++ String.intercalate ",\n"
        (pyDumpsArr [Json.str "é"] 1) ++ "\n" ++ spaces 0 ++ "]" := by
  have h := spec_C8 [] [] (fun _ => []) (fun a => a)
    (fun _ => PyResult.raised "disk full") [Json.str "x"]
    (Json.str "é") [] 'é'
  exact ⟨h.2.1, h.2.2.2.2.2 (by decide), h.2.2.2.1⟩

end AgentScraper
